import Mathlib

/-!
# strogonoff-demo: the upload handler, its content key and its error boundary

A shallow embedding of `demo/demo.go`:

* `keyOf` (lines 43-48), over a model of `crypto/sha1`;
* the resize section of `upload` (lines 69-93) as `resizeStage`, and the whole
  handler as `upload` (lines 50-110);
* `check` (lines 147-152) and `errorHandler` (lines 133-145), with `panic` and
  `recover` made explicit as an optional panic value returned next to the state.

Go `int` values are image extents and their products with 1200 or 600.  A decoded
image keeps at least one byte per pixel in a slice whose length is an `int`, so
the short side of any image the handler can hold stays far below the point
where such a product would wrap (`scaled_extent_fits`); they are modelled in `ℤ`,
with Go's truncating division `Int.tdiv` and its divide-by-zero panic kept.
-/

namespace Demo

/-! ## `crypto/sha1` (FIPS 180-1), on bytes as natural numbers -/

/-- Reduction to a 32-bit word. -/
def w32 (x : Nat) : Nat := x % 2 ^ 32

/-- Left rotation of a 32-bit word. -/
def rotl (n x : Nat) : Nat := w32 ((x <<< n) ||| (x >>> (32 - n)))

/-- Big-endian bytes of a 32-bit word. -/
def be32 (x : Nat) : List Nat :=
  [x / 2 ^ 24 % 256, x / 2 ^ 16 % 256, x / 2 ^ 8 % 256, x % 256]

/-- Big-endian bytes of a 64-bit length. -/
def be64 (x : Nat) : List Nat := be32 (x / 2 ^ 32) ++ be32 x

/-- Message padding: a `0x80` byte, zero bytes up to 56 modulo 64, and the bit
length on eight bytes. -/
def sha1Pad (data : List Nat) : List Nat :=
  data.map (· % 256) ++ [128] ++ List.replicate ((119 - data.length % 64) % 64) 0
    ++ be64 (data.length * 8)

/-- The `i`-th big-endian word of a block. -/
def wordAt (bs : List Nat) (i : Nat) : Nat :=
  bs.getD (4 * i) 0 * 2 ^ 24 + bs.getD (4 * i + 1) 0 * 2 ^ 16
    + bs.getD (4 * i + 2) 0 * 2 ^ 8 + bs.getD (4 * i + 3) 0

/-- Message schedule: the sixteen words of the block extended to eighty. -/
def schedule (blk : List Nat) : List Nat :=
  (List.range 64).foldl
    (fun ws t =>
      ws ++ [rotl 1 (ws.getD (t + 13) 0 ^^^ ws.getD (t + 8) 0 ^^^ ws.getD (t + 2) 0
        ^^^ ws.getD t 0)])
    ((List.range 16).map (wordAt blk))

/-- The five chaining words of SHA-1. -/
structure Sha1State where
  a : Nat
  b : Nat
  c : Nat
  d : Nat
  e : Nat

/-- Round function of round `t`. -/
def sha1F (t b c d : Nat) : Nat :=
  if t < 20 then (b &&& c) ||| ((b ^^^ 0xFFFFFFFF) &&& d)
  else if t < 40 then b ^^^ c ^^^ d
  else if t < 60 then (b &&& c) ||| (b &&& d) ||| (c &&& d)
  else b ^^^ c ^^^ d

/-- Round constant of round `t`. -/
def sha1K (t : Nat) : Nat :=
  if t < 20 then 0x5A827999
  else if t < 40 then 0x6ED9EBA1
  else if t < 60 then 0x8F1BBCDC
  else 0xCA62C1D6

/-- One round, on the pair of the round number and its schedule word. -/
def sha1Round (s : Sha1State) (tw : Nat × Nat) : Sha1State :=
  ⟨w32 (rotl 5 s.a + sha1F tw.1 s.b s.c s.d + s.e + sha1K tw.1 + tw.2),
    s.a, rotl 30 s.b, s.c, s.d⟩

/-- Compression of one 64-byte block. -/
def sha1Block (h : Sha1State) (blk : List Nat) : Sha1State :=
  let s := ((schedule blk).enum).foldl sha1Round h
  ⟨w32 (h.a + s.a), w32 (h.b + s.b), w32 (h.c + s.c), w32 (h.d + s.d), w32 (h.e + s.e)⟩

/-- Initial chaining value. -/
def sha1Init : Sha1State := ⟨0x67452301, 0xEFCDAB89, 0x98BADCFE, 0x10325476, 0xC3D2E1F0⟩

/-- Chaining value after all blocks of the padded message. -/
def sha1Final (data : List Nat) : Sha1State :=
  let p := sha1Pad data
  (List.range (p.length / 64)).foldl
    (fun h k => sha1Block h ((p.drop (64 * k)).take 64)) sha1Init

/-- The digest `sha.Sum()` after `sha.Write(data)`: twenty bytes. -/
def sha1Sum (data : List Nat) : List Nat :=
  let s := sha1Final data
  be32 s.a ++ be32 s.b ++ be32 s.c ++ be32 s.d ++ be32 s.e

/-! ## `fmt.Sprintf("%x", s)` on a string: two lower-case digits per byte -/

/-- The digits used by `%x`. -/
def hexDigits : List Char := "0123456789abcdef".toList

/-- One hexadecimal digit. -/
def hexDigit (n : Nat) : Char := hexDigits.getD n '0'

/-- The two digits of a byte, high nibble first. -/
def hexByte (b : Nat) : List Char := [hexDigit (b / 16 % 16), hexDigit (b % 16)]

/-- Hex encoding of a byte string. -/
def hexEncode (bs : List Nat) : List Char := bs.flatMap hexByte

/-- Source `keyOf` (demo.go 43-48):
`fmt.Sprintf("%x", string(sha.Sum())[0:8])`, the hex encoding of the first
eight bytes of the digest. -/
def keyOf (data : List Nat) : String := String.mk (hexEncode ((sha1Sum data).take 8))

/-! ## Images, panics and the resize section of `upload` -/

/-- A decoded image, reduced to the extents `Bounds().Dx()` and `Bounds().Dy()`. -/
structure Image where
  dx : Int
  dy : Int
deriving DecidableEq, Repr

/-- An `os.Error` value. -/
structure OsError where
  msg : String
deriving DecidableEq, Repr

/-- The value carried by a `panic`: either it implements `os.Error` (errors
passed to `check`, and run-time errors, whose type has a `String` method), or it
is any other value, such as a plain string. -/
inductive PanicValue where
  | osError (err : OsError)
  | other (desc : String)
deriving DecidableEq, Repr

/-- Calls made by `upload` to its collaborators, in program order. -/
inductive Call where
  | resample (src : Image) (w h : Int)
  | resize (src : Image) (w h : Int)
  | encode (img : Image) (msg : String)
  | put (key : String) (data : List Nat)
deriving DecidableEq, Repr

/-- Modelled from the spec: `resize.Resample(m, r, w, h)` of package `resize`,
whose source is not part of `demo.go`; the downsample step replaces the image by
one with the target width and height. -/
def Resample (_m : Image) (_r : Image) (w h : Int) : Image := ⟨w, h⟩

/-- Modelled from the spec: `resize.Resize(m, r, w, h)` of package `resize`,
whose source is not part of `demo.go`; the resize step replaces the image by one
with the target width and height. -/
def Resize (_m : Image) (_r : Image) (w h : Int) : Image := ⟨w, h⟩

/-- The run-time panic of an integer division by zero. -/
def divideByZero : PanicValue := .osError ⟨"runtime error: integer divide by zero"⟩

/-- Go `a / b` on `int`: truncation toward zero, panic on a zero divisor. -/
def goDiv (a b : Int) : Except PanicValue Int :=
  if b = 0 then .error divideByZero else .ok (a.tdiv b)

/-- A planned target, with the divisor that was used to compute it. -/
structure Target where
  w : Int
  h : Int
  divisor : Int
deriving DecidableEq, Repr

/-- The block that occurs at lines 77-82 with `m = max` and at lines 86-91 with
`m = max/2`:
`w, h := m, m; if b.Dx() > b.Dy() { h = b.Dy() * h / b.Dx() } else { w = b.Dx() * w / b.Dy() }`. -/
def fitBox (b : Image) (m : Int) : Except PanicValue Target :=
  if b.dx > b.dy then
    match goDiv (b.dy * m) b.dx with
    | .error p => .error p
    | .ok h => .ok ⟨m, h, b.dx⟩
  else
    match goDiv (b.dx * m) b.dy with
    | .error p => .error p
    | .ok w => .ok ⟨w, m, b.dy⟩

/-- The constant `max` of line 72. -/
def maxDim : Int := 1200

/-- Outcome of the resize section: the image handed on to the encoder, the calls
made to package `resize`, and the divisors of the divisions executed. -/
structure Resized where
  img : Image
  calls : List Call
  divisors : List Int
deriving DecidableEq, Repr

/-- The second half of the resize section (lines 86-92), run on the current
image `i` with the calls and divisors accumulated so far. -/
def resizeTail (i : Image) (calls : List Call) (divs : List Int) : Except PanicValue Resized :=
  match fitBox i (maxDim / 2) with
  | .error p => .error p
  | .ok t => .ok ⟨Resize i i t.w t.h, calls ++ [Call.resize i t.w t.h], divs ++ [t.divisor]⟩

/-- The resize section of `upload` (lines 72-93). -/
def resizeStage (i : Image) : Except PanicValue Resized :=
  if i.dx > maxDim ∨ i.dy > maxDim then
    if i.dx > 2 * maxDim ∨ i.dy > 2 * maxDim then
      match fitBox i maxDim with
      | .error p => .error p
      | .ok t =>
        let i1 := Resample i i t.w t.h
        resizeTail i1 [Call.resample i t.w t.h] [t.divisor]
    else
      resizeTail i [] []
  else
    .ok ⟨i, [], []⟩


/-- The value a 32-bit Go `int` holds after an arithmetic result `x`. -/
def wrapInt32 (x : Int) : Int := (x + 2 ^ 31) % 2 ^ 32 - 2 ^ 31

/-! ## Requests, responses and the handlers -/

/-- Calls made on the `http.ResponseWriter`, in program order:
`uploadTemplate.Execute(w, nil)`, `http.Redirect(w, r, url, code)`,
`w.WriteHeader(code)` and `errorTemplate.Execute(w, err)`. -/
inductive Event where
  | executeUpload
  | redirect (url : String) (code : Nat)
  | writeHeader (code : Nat)
  | executeError (err : OsError)
deriving DecidableEq, Repr

/-- The datastore, as the list of the records put so far. -/
abbrev Store := List (String × List Nat)

/-- What `upload` reads from the `*http.Request`: the method, the outcome of
`r.FormFile("image")` (file contents and error) and the map `r.Form`. -/
structure Request where
  method : String
  file : List Nat × Option OsError
  form : String → List String

/-- The collaborators of `upload`: `image.Decode`, `strogonoff.Encode` (the
bytes left in the buffer and the error) and `datastore.Put` (the store after the
call and the error). A nil error is `none`. -/
structure Env where
  decode : List Nat → Image × Option OsError
  encode : Image → String → List Nat × Option OsError
  put : Store → String → List Nat → Store × Option OsError

/-- What a handler acts on: the calls made on the response writer, the calls
made to the collaborators, and the datastore. -/
structure World where
  resp : List Event
  calls : List Call
  store : Store

/-- An `http.HandlerFunc`: it transforms the world and either returns (`none`)
or leaves by a panic carrying a value. -/
abbrev Handler := Request → World → World × Option PanicValue

/-- Source `check` (demo.go 147-152): panics with `err` when it is non-nil. -/
def check (err : Option OsError) : Option PanicValue :=
  match err with
  | some e => some (PanicValue.osError e)
  | none => none

/-- The run-time panic of indexing an empty slice. -/
def indexOutOfRange : PanicValue := .osError ⟨"runtime error: index out of range"⟩

/-- The constant `http.StatusFound`. -/
def statusFound : Nat := 302

/-- The constant `http.StatusInternalServerError`. -/
def statusInternalServerError : Nat := 500

/-- Source `upload` (demo.go 50-110). Each `check(err)` either continues or
leaves by a panic with the state reached so far; `r.Form["message"][0]` panics on
an empty slice; `io.Copy` moves the file contents into the buffer that is
decoded; the deferred `f.Close()` has no effect on the response or the store. -/
def upload (env : Env) : Handler := fun r s =>
  if r.method ≠ "POST" then
    ({ s with resp := s.resp ++ [Event.executeUpload] }, none)
  else
    match check r.file.2 with
    | some p => (s, some p)
    | none =>
      match r.form "message" with
      | [] => (s, some indexOutOfRange)
      | msg :: _ =>
        let d := env.decode r.file.1
        match check d.2 with
        | some p => (s, some p)
        | none =>
          match resizeStage d.1 with
          | .error p => (s, some p)
          | .ok rr =>
            let e := env.encode rr.img msg
            let s1 : World := { s with calls := s.calls ++ rr.calls ++ [Call.encode rr.img msg] }
            match check e.2 with
            | some p => (s1, some p)
            | none =>
              let key := keyOf e.1
              let st := env.put s1.store key e.1
              let s2 : World :=
                { s1 with store := st.1, calls := s1.calls ++ [Call.put key e.1] }
              match check st.2 with
              | some p => (s2, some p)
              | none =>
                ({ s2 with resp := s2.resp ++ [Event.redirect ("/view?id=" ++ key) statusFound] },
                  none)

/-- Source `errorHandler` (demo.go 133-145): the deferred closure calls
`recover()`, which stops any panic, and answers only when the recovered value
asserts to `os.Error`. -/
def errorHandler (fn : Handler) : Handler := fun r s =>
  let out := fn r s
  match out.2 with
  | some (PanicValue.osError err) =>
    ({ out.1 with
        resp := out.1.resp ++
          [Event.writeHeader statusInternalServerError, Event.executeError err] },
      none)
  | _ => (out.1, none)

/-! ## Sample requests and collaborators -/

/-- A handler that panics with a plain string, as `init` does at line 39. -/
def panicWithString : Handler := fun _ s => (s, some (PanicValue.other "cannot parse view.html"))

/-- The empty world. -/
def emptyWorld : World := ⟨[], [], []⟩

/-- A POST request carrying a file and the annotation `hello`. -/
def postRequest : Request :=
  ⟨"POST", ([255, 216, 255], none), fun k => if k = "message" then ["hello"] else []⟩

/-- A GET request. -/
def getRequest : Request := ⟨"GET", ([], some ⟨"http: no such file"⟩), fun _ => []⟩

/-- Collaborators that decode every file to a `w` by `h` image and never fail. -/
def sampleEnv (w h : Int) : Env :=
  ⟨fun _ => (⟨w, h⟩, none), fun _ _ => ([1, 2, 3], none), fun st k d => ((k, d) :: st, none)⟩

/-- Collaborators that decode every file to a 3000 by 1500 image and whose
annotating encoder fails. -/
def failingEncoderEnv : Env :=
  ⟨fun _ => (⟨3000, 1500⟩, none), fun _ _ => ([], some ⟨"strogonoff: message too long"⟩),
    fun st k d => ((k, d) :: st, none)⟩

/-- Collaborators whose decoder rejects every file. -/
def rejectingEnv : Env :=
  ⟨fun _ => (⟨0, 0⟩, some ⟨"image: unknown format"⟩), fun _ _ => ([1, 2, 3], none),
    fun st k d => ((k, d) :: st, none)⟩

/-! ## Arithmetic of the scaled extents -/

theorem scale_half (a w : Int) (hw : 0 < w) : a * 1200 / w * 600 / 1200 = a * 600 / w := by
  have hlo : a * 600 / w * w ≤ a * 600 := Int.ediv_mul_le _ (ne_of_gt hw)
  have hhi : a * 600 < (a * 600 / w + 1) * w := Int.lt_ediv_add_one_mul_self _ hw
  have h1 : 2 * (a * 600 / w) ≤ a * 1200 / w := by
    rw [Int.le_ediv_iff_mul_le hw]
    nlinarith
  have h2 : a * 1200 / w < 2 * (a * 600 / w) + 2 := by
    rw [Int.ediv_lt_iff_lt_mul hw]
    nlinarith
  omega

theorem scale_lt (a w m : Int) (hw : 0 < w) (ha : a < w) (hm : 0 < m) : a * m / w < m := by
  rw [Int.ediv_lt_iff_lt_mul hw]
  nlinarith

theorem scale_le (a w m : Int) (hw : 0 < w) (ha : a ≤ w) (hm : 0 < m) : a * m / w ≤ m := by
  have : a * m / w < m + 1 := by
    rw [Int.ediv_lt_iff_lt_mul hw]
    nlinarith
  omega

theorem scale_nonneg (a w m : Int) (hw : 0 < w) (ha : 0 ≤ a) (hm : 0 ≤ m) : 0 ≤ a * m / w :=
  Int.ediv_nonneg (mul_nonneg ha hm) (le_of_lt hw)

theorem scale_pos_iff (a w m : Int) (hw : 0 < w) : 0 < a * m / w ↔ w ≤ a * m := by
  have := @Int.le_ediv_iff_mul_le 1 (a * m) w hw
  constructor
  · intro h
    have h1 : (1 : Int) ≤ a * m / w := h
    simpa using this.mp h1
  · intro h
    have : (1 : Int) ≤ a * m / w := this.mpr (by simpa using h)
    exact this

/-! ## The resize section, case by case -/

theorem goDiv_ok (a b : Int) (hb : b ≠ 0) : goDiv a b = .ok (a.tdiv b) := by
  simp [goDiv, hb]

theorem fitBox_wide (b : Image) (m : Int) (h : b.dy < b.dx) (hne : b.dx ≠ 0) :
    fitBox b m = .ok ⟨m, (b.dy * m).tdiv b.dx, b.dx⟩ := by
  simp [fitBox, h, goDiv_ok _ _ hne]

theorem fitBox_tall (b : Image) (m : Int) (h : b.dx ≤ b.dy) (hne : b.dy ≠ 0) :
    fitBox b m = .ok ⟨(b.dx * m).tdiv b.dy, m, b.dy⟩ := by
  simp [fitBox, not_lt.mpr h, goDiv_ok _ _ hne]

theorem half_maxDim : maxDim / 2 = 600 := by decide

theorem resizeStage_small (w h : Int) (hmax : max w h ≤ 1200) :
    resizeStage ⟨w, h⟩ = .ok ⟨⟨w, h⟩, [], []⟩ := by
  have h1 : w ≤ 1200 := le_trans (le_max_left w h) hmax
  have h2 : h ≤ 1200 := le_trans (le_max_right w h) hmax
  simp [resizeStage, maxDim, not_lt.mpr h1, not_lt.mpr h2]

theorem resizeStage_unfold_mid (w h : Int) (h1 : 1200 < w ∨ 1200 < h)
    (h2 : w ≤ 2400 ∧ h ≤ 2400) :
    resizeStage ⟨w, h⟩ = resizeTail ⟨w, h⟩ [] [] := by
  have c1 : (⟨w, h⟩ : Image).dx > maxDim ∨ (⟨w, h⟩ : Image).dy > maxDim := by
    simpa [maxDim] using h1
  have c2 : ¬ ((⟨w, h⟩ : Image).dx > 2 * maxDim ∨ (⟨w, h⟩ : Image).dy > 2 * maxDim) := by
    simp only [maxDim]
    omega
  unfold resizeStage
  rw [if_pos c1, if_neg c2]

theorem resizeStage_unfold_big (w h : Int) (t : Target) (h2 : 2400 < w ∨ 2400 < h)
    (ht : fitBox ⟨w, h⟩ maxDim = .ok t) :
    resizeStage ⟨w, h⟩ =
      resizeTail (Resample ⟨w, h⟩ ⟨w, h⟩ t.w t.h) [Call.resample ⟨w, h⟩ t.w t.h] [t.divisor] := by
  have c1 : (⟨w, h⟩ : Image).dx > maxDim ∨ (⟨w, h⟩ : Image).dy > maxDim := by
    simp only [maxDim]
    omega
  have c2 : (⟨w, h⟩ : Image).dx > 2 * maxDim ∨ (⟨w, h⟩ : Image).dy > 2 * maxDim := by
    simp only [maxDim]
    omega
  unfold resizeStage
  rw [if_pos c1, if_pos c2, ht]

theorem resizeTail_wide (w h : Int) (cs : List Call) (ds : List Int) (hh : 0 ≤ h)
    (hwh : h < w) :
    resizeTail ⟨w, h⟩ cs ds =
      .ok ⟨⟨600, h * 600 / w⟩, cs ++ [Call.resize ⟨w, h⟩ 600 (h * 600 / w)], ds ++ [w]⟩ := by
  have e : (h * 600).tdiv w = h * 600 / w := Int.tdiv_eq_ediv (by omega) (by omega)
  have hf := fitBox_wide ⟨w, h⟩ 600 hwh (by show w ≠ 0; omega)
  simp only [resizeTail, half_maxDim, hf, e, Resize]

theorem resizeTail_tall (w h : Int) (cs : List Call) (ds : List Int) (hw : 0 ≤ w)
    (hwh : w ≤ h) (hh : 0 < h) :
    resizeTail ⟨w, h⟩ cs ds =
      .ok ⟨⟨w * 600 / h, 600⟩, cs ++ [Call.resize ⟨w, h⟩ (w * 600 / h) 600], ds ++ [h]⟩ := by
  have e : (w * 600).tdiv h = w * 600 / h := Int.tdiv_eq_ediv (by omega) (by omega)
  have hf := fitBox_tall ⟨w, h⟩ 600 hwh (by show h ≠ 0; omega)
  simp only [resizeTail, half_maxDim, hf, e, Resize]

theorem resizeStage_big_wide (w h : Int) (hh : 0 ≤ h) (hwh : h < w) (hbig : 2400 < w) :
    resizeStage ⟨w, h⟩ =
      .ok ⟨⟨600, h * 600 / w⟩,
        [Call.resample ⟨w, h⟩ 1200 (h * 1200 / w),
          Call.resize ⟨1200, h * 1200 / w⟩ 600 (h * 600 / w)],
        [w, 1200]⟩ := by
  have hw : 0 < w := by omega
  have e : (h * 1200).tdiv w = h * 1200 / w := Int.tdiv_eq_ediv (by omega) (by omega)
  have hf : fitBox ⟨w, h⟩ maxDim = .ok ⟨1200, h * 1200 / w, w⟩ := by
    rw [← e]
    exact fitBox_wide ⟨w, h⟩ 1200 hwh (by show w ≠ 0; omega)
  rw [resizeStage_unfold_big w h _ (Or.inl hbig) hf]
  simp only [Resample]
  rw [resizeTail_wide 1200 (h * 1200 / w) _ _ (scale_nonneg h w 1200 hw hh (by norm_num))
    (scale_lt h w 1200 hw hwh (by norm_num))]
  have := scale_half h w hw
  simp only [List.singleton_append, this]

theorem resizeStage_big_tall (w h : Int) (hw : 0 ≤ w) (hwh : w ≤ h) (hbig : 2400 < h) :
    resizeStage ⟨w, h⟩ =
      .ok ⟨⟨w * 600 / h, 600⟩,
        [Call.resample ⟨w, h⟩ (w * 1200 / h) 1200,
          Call.resize ⟨w * 1200 / h, 1200⟩ (w * 600 / h) 600],
        [h, 1200]⟩ := by
  have hh : 0 < h := by omega
  have e : (w * 1200).tdiv h = w * 1200 / h := Int.tdiv_eq_ediv (by omega) (by omega)
  have hf : fitBox ⟨w, h⟩ maxDim = .ok ⟨w * 1200 / h, 1200, h⟩ := by
    rw [← e]
    exact fitBox_tall ⟨w, h⟩ 1200 hwh (by show h ≠ 0; omega)
  rw [resizeStage_unfold_big w h _ (Or.inr hbig) hf]
  simp only [Resample]
  rw [resizeTail_tall (w * 1200 / h) 1200 _ _ (scale_nonneg w h 1200 hh hw (by norm_num))
    (scale_le w h 1200 hh hwh (by norm_num)) (by norm_num)]
  have := scale_half w h hh
  simp only [List.singleton_append, this]

/-! ## The content key -/

theorem be32_length (x : Nat) : (be32 x).length = 4 := rfl

theorem sha1Sum_length (data : List Nat) : (sha1Sum data).length = 20 := by
  simp [sha1Sum, be32_length]

theorem hexEncode_length (bs : List Nat) : (hexEncode bs).length = 2 * bs.length := by
  induction bs with
  | nil => rfl
  | cons b bs ih =>
    simp only [hexEncode, List.flatMap_cons, List.length_append, List.length_cons] at *
    rw [ih]
    simp [hexByte]
    omega

theorem hexEncode_take (n : Nat) (bs : List Nat) :
    hexEncode (bs.take n) = (hexEncode bs).take (2 * n) := by
  induction n generalizing bs with
  | zero => simp [hexEncode]
  | succ n ih =>
    cases bs with
    | nil => simp [hexEncode]
    | cons b bs =>
      have h2 : 2 * (n + 1) = (2 * n) + 1 + 1 := by ring
      have := ih bs
      simp only [hexEncode, List.take_succ_cons, List.flatMap_cons] at *
      rw [this, h2]
      simp [hexByte]

theorem hexDigit_mem (n : Nat) (h : n < 16) : hexDigit n ∈ hexDigits := by
  interval_cases n <;> decide

theorem hexEncode_digits (bs : List Nat) : ∀ c ∈ hexEncode bs, c ∈ hexDigits := by
  intro c hc
  simp only [hexEncode, List.mem_flatMap, hexByte, List.mem_cons, List.mem_singleton,
    List.not_mem_nil, or_false] at hc
  obtain ⟨b, _, hb⟩ := hc
  rcases hb with rfl | rfl
  · exact hexDigit_mem _ (Nat.mod_lt _ (by norm_num))
  · exact hexDigit_mem _ (Nat.mod_lt _ (by norm_num))

/-- C4 (as amended): for every byte sequence, `keyOf` is a string of exactly 16
hexadecimal characters, the first 16 characters of the hex encoding of the SHA-1
digest, that is the hex encoding of its first 8 bytes. -/
theorem keyOf_sixteen_hex_digits (data : List Nat) :
    (keyOf data).length = 16 ∧
      keyOf data = String.mk ((hexEncode (sha1Sum data)).take 16) ∧
      ∀ c ∈ (keyOf data).data, c ∈ hexDigits := by
  refine ⟨?_, ?_, ?_⟩
  · simp [keyOf, String.length, hexEncode_length, sha1Sum_length]
  · simp [keyOf, hexEncode_take]
  · intro c hc
    exact hexEncode_digits _ c hc

set_option maxRecDepth 100000 in
theorem sha1Sum_abc :
    String.mk (hexEncode (sha1Sum [97, 98, 99])) = "a9993e364706816aba3e25717850c26c9cd0d89d" := by
  rfl

set_option maxRecDepth 100000 in
theorem sha1Sum_nil :
    String.mk (hexEncode (sha1Sum [])) = "da39a3ee5e6b4b0d3255bfef95601890afd80709" := by
  rfl

set_option maxRecDepth 100000 in
theorem keyOf_nil : keyOf [] = "da39a3ee5e6b4b0d" := by rfl

set_option maxRecDepth 100000 in
theorem sha1Sum_nil_hex_take :
    String.mk ((hexEncode (sha1Sum [])).take 8) = "da39a3ee" := by rfl

/-- C4 (as stated) fails on the empty input: the key of the empty byte sequence
is the 16-character string `da39a3ee5e6b4b0d`, not an 8-character one. -/
theorem keyOf_empty_not_eight :
    keyOf [] = "da39a3ee5e6b4b0d" ∧ (keyOf []).length = 16 ∧ (keyOf []).length ≠ 8 ∧
      keyOf [] ≠ String.mk ((hexEncode (sha1Sum [])).take 8) := by
  rw [keyOf_nil, sha1Sum_nil_hex_take]
  decide

theorem scaled_extent_fits (w h : Int) (hw : 0 < w) (hh : 0 < h) (hpix : w * h < 2 ^ 31) :
    wrapInt32 (min w h * 1200) = min w h * 1200 := by
  have hm : min w h * min w h ≤ w * h :=
    mul_le_mul (min_le_left w h) (min_le_right w h) (le_of_lt (lt_min hw hh)) (le_of_lt hw)
  have h0 : 0 < min w h := lt_min hw hh
  have hb : min w h < 46341 := by
    by_contra hc
    have : (46341 : Int) ≤ min w h := not_lt.mp hc
    nlinarith
  unfold wrapInt32
  omega

/-! ## The resize plan -/

/-- C1: for positive `w`, `h` with `max w h > 2400` the resize section makes
exactly two calls, first `resize.Resample` with the long axis at 1200 and the
short axis at `floor(short*1200/long)`, then `resize.Resize` with a target
computed from the bounds `(w1, h1)` of the downsampled image, long axis 600 and
short axis `floor(short1*600/long1)`; a 3000x1500 source is downsampled to
1200x600 and resized to 600x300. -/
theorem upload_plan_two_steps (w h : Int) (hw : 0 < w) (hh : 0 < h) (hbig : 2400 < max w h) :
    (∃ w1 h1 w2 h2 : Int, ∃ r : Resized,
      (w1, h1) = (if w > h then (1200, (h * 1200).fdiv w) else ((w * 1200).fdiv h, 1200)) ∧
      (Resample ⟨w, h⟩ ⟨w, h⟩ w1 h1).dx = w1 ∧ (Resample ⟨w, h⟩ ⟨w, h⟩ w1 h1).dy = h1 ∧
      (w2, h2) =
        (if w1 > h1 then (600, (h1 * 600).fdiv w1) else ((w1 * 600).fdiv h1, 600)) ∧
      resizeStage ⟨w, h⟩ = .ok r ∧
      r.calls = [Call.resample ⟨w, h⟩ w1 h1,
        Call.resize (Resample ⟨w, h⟩ ⟨w, h⟩ w1 h1) w2 h2] ∧
      r.img = Resize (Resample ⟨w, h⟩ ⟨w, h⟩ w1 h1) (Resample ⟨w, h⟩ ⟨w, h⟩ w1 h1) w2 h2) ∧
    resizeStage ⟨3000, 1500⟩ =
      .ok ⟨⟨600, 300⟩,
        [Call.resample ⟨3000, 1500⟩ 1200 600, Call.resize ⟨1200, 600⟩ 600 300],
        [3000, 1200]⟩ := by
  refine ⟨?_, by rfl⟩
  by_cases hwh : h < w
  · have hb : 2400 < w := by
      rcases lt_max_iff.mp hbig with h1 | h1 <;> omega
    have hs := scale_lt h w 1200 hw hwh (by norm_num)
    have hn := scale_nonneg h w 1200 hw (le_of_lt hh) (by norm_num)
    refine ⟨1200, h * 1200 / w, 600, h * 600 / w, _, ?_, rfl, rfl, ?_,
      resizeStage_big_wide w h (le_of_lt hh) hwh hb, rfl, rfl⟩
    · rw [if_pos hwh, Int.fdiv_eq_ediv _ (le_of_lt hw)]
    · rw [if_pos hs, Int.fdiv_eq_ediv _ (by norm_num), scale_half h w hw]
  · have hwh2 : w ≤ h := not_lt.mp hwh
    have hb : 2400 < h := by
      rcases lt_max_iff.mp hbig with h1 | h1 <;> omega
    have hs := scale_le w h 1200 hh hwh2 (by norm_num)
    refine ⟨w * 1200 / h, 1200, w * 600 / h, 600, _, ?_, rfl, rfl, ?_,
      resizeStage_big_tall w h (le_of_lt hw) hwh2 hb, rfl, rfl⟩
    · rw [if_neg hwh, Int.fdiv_eq_ediv _ (le_of_lt hh)]
    · rw [if_neg (not_lt.mpr hs), Int.fdiv_eq_ediv _ (by norm_num), scale_half w h hh]

/-- Witness of C1 at a 4000x1000 source. -/
theorem upload_plan_two_steps_witness :
    (∃ w1 h1 w2 h2 : Int, ∃ r : Resized,
      (w1, h1) = (if (4000 : Int) > 1000 then (1200, ((1000 : Int) * 1200).fdiv 4000)
        else (((4000 : Int) * 1200).fdiv 1000, 1200)) ∧
      (Resample ⟨4000, 1000⟩ ⟨4000, 1000⟩ w1 h1).dx = w1 ∧
      (Resample ⟨4000, 1000⟩ ⟨4000, 1000⟩ w1 h1).dy = h1 ∧
      (w2, h2) =
        (if w1 > h1 then (600, (h1 * 600).fdiv w1) else ((w1 * 600).fdiv h1, 600)) ∧
      resizeStage ⟨4000, 1000⟩ = .ok r ∧
      r.calls = [Call.resample ⟨4000, 1000⟩ w1 h1,
        Call.resize (Resample ⟨4000, 1000⟩ ⟨4000, 1000⟩ w1 h1) w2 h2] ∧
      r.img = Resize (Resample ⟨4000, 1000⟩ ⟨4000, 1000⟩ w1 h1)
        (Resample ⟨4000, 1000⟩ ⟨4000, 1000⟩ w1 h1) w2 h2) ∧
    resizeStage ⟨3000, 1500⟩ =
      .ok ⟨⟨600, 300⟩,
        [Call.resample ⟨3000, 1500⟩ 1200 600, Call.resize ⟨1200, 600⟩ 600 300],
        [3000, 1200]⟩ :=
  upload_plan_two_steps 4000 1000 (by decide) (by decide) (by decide)

/-- C2: for positive `w`, `h` with `1200 < max w h ≤ 2400` the resize section
makes exactly one call and no downsample: `resize.Resize` on the source image
with target `(600, floor(h*600/w))` when `w > h` and `(floor(w*600/h), 600)`
otherwise. -/
theorem upload_plan_one_resize (w h : Int) (hw : 0 < w) (hh : 0 < h) (hlo : 1200 < max w h)
    (hhi : max w h ≤ 2400) :
    ∃ tw th : Int, ∃ r : Resized,
      (tw, th) = (if w > h then (600, (h * 600).fdiv w) else ((w * 600).fdiv h, 600)) ∧
      resizeStage ⟨w, h⟩ = .ok r ∧
      r.calls = [Call.resize ⟨w, h⟩ tw th] ∧
      r.img = Resize ⟨w, h⟩ ⟨w, h⟩ tw th := by
  have h1 : 1200 < w ∨ 1200 < h := lt_max_iff.mp hlo
  have h2 : w ≤ 2400 ∧ h ≤ 2400 := max_le_iff.mp hhi
  rw [resizeStage_unfold_mid w h h1 h2]
  by_cases hwh : h < w
  · refine ⟨600, h * 600 / w, _, ?_, resizeTail_wide w h [] [] (le_of_lt hh) hwh, rfl, rfl⟩
    rw [if_pos hwh, Int.fdiv_eq_ediv _ (le_of_lt hw)]
  · refine ⟨w * 600 / h, 600, _, ?_,
      resizeTail_tall w h [] [] (le_of_lt hw) (not_lt.mp hwh) hh, rfl, rfl⟩
    rw [if_neg hwh, Int.fdiv_eq_ediv _ (le_of_lt hh)]

/-- Witness of C2 at a 2000x1000 source. -/
theorem upload_plan_one_resize_witness :
    ∃ tw th : Int, ∃ r : Resized,
      (tw, th) = (if (2000 : Int) > 1000 then (600, ((1000 : Int) * 600).fdiv 2000)
        else (((2000 : Int) * 600).fdiv 1000, 600)) ∧
      resizeStage ⟨2000, 1000⟩ = .ok r ∧
      r.calls = [Call.resize ⟨2000, 1000⟩ tw th] ∧
      r.img = Resize ⟨2000, 1000⟩ ⟨2000, 1000⟩ tw th :=
  upload_plan_one_resize 2000 1000 (by decide) (by decide) (by decide) (by decide)

/-- C9: for positive `w`, `h` with `max w h > 2400` the last call of the two-step
plan is a `resize.Resize` whose target is the one a single direct resize planned
from the original bounds has: `(600, floor(h*600/w))` when `w > h` and
`(floor(w*600/h), 600)` otherwise. -/
theorem two_step_target_matches_direct (w h : Int) (hw : 0 < w) (hh : 0 < h)
    (hbig : 2400 < max w h) :
    ∃ tw th d : Int, ∃ r : Resized, ∃ src : Image,
      resizeStage ⟨w, h⟩ = .ok r ∧
      r.calls.length = 2 ∧
      r.calls.getLast? = some (Call.resize src tw th) ∧
      r.img = ⟨tw, th⟩ ∧
      fitBox ⟨w, h⟩ (maxDim / 2) = .ok ⟨tw, th, d⟩ ∧
      (tw, th) = (if w > h then (600, (h * 600).fdiv w) else ((w * 600).fdiv h, 600)) := by
  by_cases hwh : h < w
  · have hb : 2400 < w := by
      rcases lt_max_iff.mp hbig with h1 | h1 <;> omega
    have e : (h * 600).tdiv w = h * 600 / w := Int.tdiv_eq_ediv (by omega) (by omega)
    refine ⟨600, h * 600 / w, w, _, _, resizeStage_big_wide w h (le_of_lt hh) hwh hb, rfl, rfl,
      rfl, ?_, ?_⟩
    · rw [half_maxDim, ← e]
      exact fitBox_wide ⟨w, h⟩ 600 hwh (by show w ≠ 0; omega)
    · rw [if_pos hwh, Int.fdiv_eq_ediv _ (le_of_lt hw)]
  · have hwh2 : w ≤ h := not_lt.mp hwh
    have hb : 2400 < h := by
      rcases lt_max_iff.mp hbig with h1 | h1 <;> omega
    have e : (w * 600).tdiv h = w * 600 / h := Int.tdiv_eq_ediv (by omega) (by omega)
    refine ⟨w * 600 / h, 600, h, _, _, resizeStage_big_tall w h (le_of_lt hw) hwh2 hb, rfl, rfl,
      rfl, ?_, ?_⟩
    · rw [half_maxDim, ← e]
      exact fitBox_tall ⟨w, h⟩ 600 hwh2 (by show h ≠ 0; omega)
    · rw [if_neg hwh, Int.fdiv_eq_ediv _ (le_of_lt hh)]

/-- Witness of C9 at a 2500x2499 source. -/
theorem two_step_target_matches_direct_witness :
    ∃ tw th d : Int, ∃ r : Resized, ∃ src : Image,
      resizeStage ⟨2500, 2499⟩ = .ok r ∧
      r.calls.length = 2 ∧
      r.calls.getLast? = some (Call.resize src tw th) ∧
      r.img = ⟨tw, th⟩ ∧
      fitBox ⟨2500, 2499⟩ (maxDim / 2) = .ok ⟨tw, th, d⟩ ∧
      (tw, th) = (if (2500 : Int) > 2499 then (600, ((2499 : Int) * 600).fdiv 2500)
        else (((2500 : Int) * 600).fdiv 2499, 600)) :=
  two_step_target_matches_direct 2500 2499 (by decide) (by decide) (by decide)

/-- C10: for positive `w`, `h` with `max w h > 1200` every division executed by
the resize section has a positive divisor, and the target of the final
`resize.Resize` has both dimensions positive exactly when
`600 * min w h ≥ max w h`; the 1201x1 source gets the target 600x0. -/
theorem plan_divisors_positive (w h : Int) (hw : 0 < w) (hh : 0 < h)
    (hbig : 1200 < max w h) :
    (∃ tw th : Int, ∃ r : Resized, ∃ src : Image,
      resizeStage ⟨w, h⟩ = .ok r ∧
      r.divisors ≠ [] ∧
      (∀ d ∈ r.divisors, 0 < d) ∧
      r.calls.getLast? = some (Call.resize src tw th) ∧
      ((0 < tw ∧ 0 < th) ↔ max w h ≤ 600 * min w h)) ∧
    resizeStage ⟨1201, 1⟩ = .ok ⟨⟨600, 0⟩, [Call.resize ⟨1201, 1⟩ 600 0], [1201]⟩ := by
  refine ⟨?_, by rfl⟩
  by_cases hwh : h < w
  · have hmax : max w h = w := max_eq_left (le_of_lt hwh)
    have hmin : min w h = h := min_eq_right (le_of_lt hwh)
    have hpos : (0 < (600 : Int) ∧ 0 < h * 600 / w) ↔ max w h ≤ 600 * min w h := by
      rw [hmax, hmin, scale_pos_iff h w 600 hw, mul_comm]
      simp
    by_cases hb : 2400 < w
    · refine ⟨600, h * 600 / w, _, _, resizeStage_big_wide w h (le_of_lt hh) hwh hb, by simp, ?_,
        rfl, hpos⟩
      intro d hd
      simp only [List.mem_cons, List.mem_singleton, List.not_mem_nil, or_false] at hd
      rcases hd with rfl | rfl
      · exact hw
      · norm_num
    · rw [resizeStage_unfold_mid w h (by rw [hmax] at hbig; exact Or.inl hbig) (by omega)]
      refine ⟨600, h * 600 / w, _, _, resizeTail_wide w h [] [] (le_of_lt hh) hwh, by simp, ?_,
        rfl, hpos⟩
      intro d hd
      simp only [List.nil_append, List.mem_singleton] at hd
      rw [hd]
      exact hw
  · have hwh2 : w ≤ h := not_lt.mp hwh
    have hmax : max w h = h := max_eq_right hwh2
    have hmin : min w h = w := min_eq_left hwh2
    have hpos : (0 < w * 600 / h ∧ 0 < (600 : Int)) ↔ max w h ≤ 600 * min w h := by
      rw [hmax, hmin, scale_pos_iff w h 600 hh, mul_comm]
      simp
    by_cases hb : 2400 < h
    · refine ⟨w * 600 / h, 600, _, _, resizeStage_big_tall w h (le_of_lt hw) hwh2 hb, by simp, ?_,
        rfl, hpos⟩
      intro d hd
      simp only [List.mem_cons, List.mem_singleton, List.not_mem_nil, or_false] at hd
      rcases hd with rfl | rfl
      · exact hh
      · norm_num
    · rw [resizeStage_unfold_mid w h (by rw [hmax] at hbig; exact Or.inr hbig) (by omega)]
      refine ⟨w * 600 / h, 600, _, _, resizeTail_tall w h [] [] (le_of_lt hw) hwh2 hh, by simp,
        ?_, rfl, hpos⟩
      intro d hd
      simp only [List.nil_append, List.mem_singleton] at hd
      rw [hd]
      exact hh

/-- Witness of C10 at a 5000x7 source. -/
theorem plan_divisors_positive_witness :
    (∃ tw th : Int, ∃ r : Resized, ∃ src : Image,
      resizeStage ⟨5000, 7⟩ = .ok r ∧
      r.divisors ≠ [] ∧
      (∀ d ∈ r.divisors, 0 < d) ∧
      r.calls.getLast? = some (Call.resize src tw th) ∧
      ((0 < tw ∧ 0 < th) ↔ max (5000 : Int) 7 ≤ 600 * min (5000 : Int) 7)) ∧
    resizeStage ⟨1201, 1⟩ = .ok ⟨⟨600, 0⟩, [Call.resize ⟨1201, 1⟩ 600 0], [1201]⟩ :=
  plan_divisors_positive 5000 7 (by decide) (by decide) (by decide)

theorem fitBox_total (b : Image) (m : Int) (hpos : 0 < b.dx ∨ 0 < b.dy) :
    ∃ t, fitBox b m = .ok t ∧ ((b.dy < b.dx ∧ t.w = m) ∨ (b.dx ≤ b.dy ∧ t.h = m)) := by
  by_cases hwh : b.dy < b.dx
  · exact ⟨_, fitBox_wide b m hwh (by omega), Or.inl ⟨hwh, rfl⟩⟩
  · exact ⟨_, fitBox_tall b m (not_lt.mp hwh) (by omega), Or.inr ⟨not_lt.mp hwh, rfl⟩⟩

theorem resizeTail_total (i : Image) (cs : List Call) (ds : List Int)
    (hpos : 0 < i.dx ∨ 0 < i.dy) : ∃ r, resizeTail i cs ds = .ok r := by
  obtain ⟨t, ht, _⟩ := fitBox_total i (maxDim / 2) hpos
  refine ⟨⟨Resize i i t.w t.h, cs ++ [Call.resize i t.w t.h], ds ++ [t.divisor]⟩, ?_⟩
  simp only [resizeTail, ht]

theorem resizeTail_calls (i : Image) (cs : List Call) (ds : List Int) (r : Resized)
    (h : resizeTail i cs ds = .ok r) : ∃ tw th, r.calls = cs ++ [Call.resize i tw th] := by
  unfold resizeTail at h
  split at h
  · cases h
  · cases h
    exact ⟨_, _, rfl⟩

theorem resizeStage_calls_no_put (i : Image) (r : Resized) (h : resizeStage i = .ok r) :
    ∀ k d, Call.put k d ∉ r.calls := by
  intro k d
  unfold resizeStage at h
  split at h
  · split at h
    · split at h
      · cases h
      · obtain ⟨tw, th, hc⟩ := resizeTail_calls _ _ _ _ h
        rw [hc]
        simp
    · obtain ⟨tw, th, hc⟩ := resizeTail_calls _ _ _ _ h
      rw [hc]
      simp
  · cases h
    simp

theorem resizeStage_total (w h : Int) (_hw : 0 ≤ w) (_hh : 0 ≤ h) :
    ∃ r, resizeStage ⟨w, h⟩ = .ok r := by
  by_cases c1 : 1200 < w ∨ 1200 < h
  · by_cases c2 : 2400 < w ∨ 2400 < h
    · obtain ⟨t, ht, hax⟩ := fitBox_total ⟨w, h⟩ maxDim (by show 0 < w ∨ 0 < h; omega)
      rw [resizeStage_unfold_big w h t c2 ht]
      apply resizeTail_total
      simp only [Resample, maxDim] at *
      omega
    · rw [resizeStage_unfold_mid w h c1 (by omega)]
      exact resizeTail_total _ _ _ (by show 0 < w ∨ 0 < h; omega)
  · exact ⟨_, resizeStage_small w h (max_le (by omega) (by omega))⟩

/-- C7 (as amended): the resize section has no dimension check and raises no
`InvalidDimensionError`. Whenever neither extent exceeds 1200, non-positive
extents included, the plan is empty and the image is handed on unchanged; and
for all non-negative extents, hence for all positive ones, it produces a plan
without failing. -/
theorem resizeStage_never_rejects (w h : Int) :
    (max w h ≤ 1200 → resizeStage ⟨w, h⟩ = .ok ⟨⟨w, h⟩, [], []⟩) ∧
      (0 ≤ w → 0 ≤ h → ∃ r, resizeStage ⟨w, h⟩ = .ok r) :=
  ⟨resizeStage_small w h, resizeStage_total w h⟩

/-- Witness of C7 (as amended): a 0x700 image, and a 0x3000 image for the
non-failure part. -/
theorem resizeStage_never_rejects_witness :
    max (0 : Int) 700 ≤ 1200 ∧ (0 : Int) ≤ 0 ∧ (0 : Int) ≤ 700 ∧
      resizeStage ⟨0, 700⟩ = .ok ⟨⟨0, 700⟩, [], []⟩ ∧
      (∃ r, resizeStage ⟨0, 700⟩ = .ok r) ∧
      ((0 : Int) ≤ 3000 ∧ ∃ r, resizeStage ⟨0, 3000⟩ = .ok r) :=
  ⟨by decide, by decide, by decide,
    (resizeStage_never_rejects 0 700).1 (by decide),
    (resizeStage_never_rejects 0 700).2 (by decide) (by decide),
    by decide, (resizeStage_never_rejects 0 3000).2 (by decide) (by decide)⟩

/-- C7 (as stated) fails at the 0x0 image: the resize section does not reject
it, it returns the empty plan. -/
theorem resizeStage_accepts_empty_image :
    ((0 : Int) ≤ 0 ∨ (0 : Int) ≤ 0) ∧
      resizeStage ⟨0, 0⟩ = .ok ⟨⟨0, 0⟩, [], []⟩ ∧
      ¬ ∃ p, resizeStage ⟨0, 0⟩ = .error p := by
  have h : resizeStage ⟨0, 0⟩ = .ok ⟨⟨0, 0⟩, [], []⟩ := by rfl
  refine ⟨Or.inl (le_refl 0), h, ?_⟩
  rintro ⟨p, hp⟩
  rw [h] at hp
  cases hp

/-! ## The upload handler -/

/-- C3: when the decoded image has `max w h ≤ 1200`, the resize plan is empty and
`upload` calls neither `resize.Resample` nor `resize.Resize`: its first call is
the encoder, on the decoded image with its original dimensions, followed at most
by the datastore put. -/
theorem upload_small_image_not_resized (env : Env) (r : Request) (s : World) (w h : Int)
    (msg : String) (rest : List String) (hpost : r.method = "POST") (hfile : r.file.2 = none)
    (hmsg : r.form "message" = msg :: rest) (hdec : env.decode r.file.1 = (⟨w, h⟩, none))
    (hmax : max w h ≤ 1200) :
    resizeStage ⟨w, h⟩ = .ok ⟨⟨w, h⟩, [], []⟩ ∧
      ∃ cs, (upload env r s).1.calls = s.calls ++ Call.encode ⟨w, h⟩ msg :: cs ∧
        ∀ c ∈ cs, ∃ k d, c = Call.put k d := by
  have hs := resizeStage_small w h hmax
  refine ⟨hs, ?_⟩
  simp only [upload, hpost, ne_eq, not_true_eq_false, if_false, hfile, check, hmsg, hdec, hs]
  cases he : (env.encode ⟨w, h⟩ msg).2 with
  | some e => exact ⟨[], by simp, by simp⟩
  | none =>
    refine ⟨[Call.put (keyOf (env.encode ⟨w, h⟩ msg).1) (env.encode ⟨w, h⟩ msg).1], ?_, by simp⟩
    cases hp : (env.put s.store (keyOf (env.encode ⟨w, h⟩ msg).1)
        (env.encode ⟨w, h⟩ msg).1).2 <;> simp

/-- Witness of C3 at a 800x600 image. -/
theorem upload_small_image_not_resized_witness :
    resizeStage ⟨800, 600⟩ = .ok ⟨⟨800, 600⟩, [], []⟩ ∧
      ∃ cs, (upload (sampleEnv 800 600) postRequest emptyWorld).1.calls =
          emptyWorld.calls ++ Call.encode ⟨800, 600⟩ "hello" :: cs ∧
        ∀ c ∈ cs, ∃ k d, c = Call.put k d :=
  upload_small_image_not_resized (sampleEnv 800 600) postRequest emptyWorld 800 600 "hello" []
    rfl rfl (by simp [postRequest]) rfl (by decide)

/-- C6: on a POST, if reading the form file fails, or decoding fails, or the
annotating encode of the image handed on by the resize section fails, `upload`
makes no `datastore.Put`: the store is unchanged, no put call is made, and the
handler leaves by a panic. -/
theorem upload_failure_stores_nothing (env : Env) (r : Request) (s : World)
    (hpost : r.method = "POST")
    (hfail : r.file.2 ≠ none ∨ (env.decode r.file.1).2 ≠ none ∨
      ∀ rr msg rest, resizeStage (env.decode r.file.1).1 = .ok rr →
        r.form "message" = msg :: rest → (env.encode rr.img msg).2 ≠ none) :
    (upload env r s).1.store = s.store ∧
      (∃ cs, (upload env r s).1.calls = s.calls ++ cs ∧ ∀ k d, Call.put k d ∉ cs) ∧
      (upload env r s).2 ≠ none := by
  simp only [upload, hpost, ne_eq, not_true_eq_false, if_false]
  cases hf : r.file.2 with
  | some e => simp [check]
  | none =>
    simp only [check]
    cases hm : r.form "message" with
    | nil => simp [indexOutOfRange]
    | cons msg rest =>
      simp only []
      cases hd : (env.decode r.file.1).2 with
      | some e => simp
      | none =>
        simp only []
        cases hr : resizeStage (env.decode r.file.1).1 with
        | error p => simp
        | ok rr =>
          simp only []
          have henc : (env.encode rr.img msg).2 ≠ none := by
            rcases hfail with h1 | h2 | h3
            · exact absurd hf h1
            · exact absurd hd h2
            · exact h3 rr msg rest hr hm
          cases he : (env.encode rr.img msg).2 with
          | none => exact absurd he henc
          | some e =>
            refine ⟨rfl, ⟨rr.calls ++ [Call.encode rr.img msg], by simp, ?_⟩, by simp⟩
            intro k d hmem
            have hno := resizeStage_calls_no_put _ rr hr k d
            simp only [List.mem_append, List.mem_singleton] at hmem
            rcases hmem with h1 | h1
            · exact hno h1
            · cases h1

/-- Witness of C6: a POST whose image decodes and whose annotating encode fails. -/
theorem upload_failure_stores_nothing_witness :
    postRequest.method = "POST" ∧
      (∀ rr msg, (failingEncoderEnv.encode rr msg).2 ≠ none) ∧
      (upload failingEncoderEnv postRequest emptyWorld).1.store = emptyWorld.store ∧
      (∃ cs, (upload failingEncoderEnv postRequest emptyWorld).1.calls = emptyWorld.calls ++ cs ∧
        ∀ k d, Call.put k d ∉ cs) ∧
      (upload failingEncoderEnv postRequest emptyWorld).2 ≠ none :=
  ⟨rfl, by simp [failingEncoderEnv],
    upload_failure_stores_nothing failingEncoderEnv postRequest emptyWorld rfl
      (Or.inr (Or.inr (by simp [failingEncoderEnv])))⟩

/-! ## The error boundary -/

/-- C5 (as amended): when the wrapped handler leaves by a panic, nothing
propagates past `errorHandler`; if the panic value is an `os.Error` (as raised by
`check`), the wrapper adds to what the handler did exactly one `WriteHeader(500)`
followed by one rendering of the error page with that error; if the value is not
an `os.Error`, the wrapper stops the panic and adds nothing. -/
theorem errorHandler_intercepts_os_error (fn : Handler) (r : Request) (s : World)
    (v : PanicValue) (h : (fn r s).2 = some v) :
    errorHandler fn r s =
      match v with
      | PanicValue.osError err =>
        ({ (fn r s).1 with
            resp := (fn r s).1.resp ++ [Event.writeHeader 500, Event.executeError err] },
          none)
      | PanicValue.other _ => ((fn r s).1, none) := by
  cases v with
  | osError e => simp [errorHandler, h, statusInternalServerError]
  | other d => simp [errorHandler, h]

/-- Witness of C5 (as amended): an upload whose file the decoder rejects. -/
theorem errorHandler_intercepts_os_error_witness :
    (upload rejectingEnv postRequest emptyWorld).2 =
        some (PanicValue.osError ⟨"image: unknown format"⟩) ∧
      errorHandler (upload rejectingEnv) postRequest emptyWorld =
        ({ (upload rejectingEnv postRequest emptyWorld).1 with
            resp := (upload rejectingEnv postRequest emptyWorld).1.resp ++
              [Event.writeHeader 500, Event.executeError ⟨"image: unknown format"⟩] },
          none) :=
  ⟨by rfl,
    errorHandler_intercepts_os_error (upload rejectingEnv) postRequest emptyWorld
      (PanicValue.osError ⟨"image: unknown format"⟩) (by rfl)⟩

/-- C5 (as stated) fails for a handler that panics with a plain string: the
wrapper stops the panic and writes nothing, neither a 500 status nor the error
page. -/
theorem errorHandler_swallows_string_panic :
    (panicWithString getRequest emptyWorld).2 =
        some (PanicValue.other "cannot parse view.html") ∧
      (errorHandler panicWithString getRequest emptyWorld).1.resp = [] ∧
      Event.writeHeader 500 ∉ (errorHandler panicWithString getRequest emptyWorld).1.resp ∧
      (errorHandler panicWithString getRequest emptyWorld).2 = none := by
  refine ⟨rfl, rfl, ?_, rfl⟩
  have h : (errorHandler panicWithString getRequest emptyWorld).1.resp = [] := rfl
  rw [h]
  simp

/-- C8: when the wrapped handler returns without a panic, `errorHandler fn`
yields exactly the outcome of `fn`: the same calls on the response writer, the
same store, and no 500 status or error page added. -/
theorem errorHandler_transparent (fn : Handler) (r : Request) (s : World)
    (h : (fn r s).2 = none) : errorHandler fn r s = fn r s := by
  unfold errorHandler
  simp only [h]
  exact Prod.ext rfl h.symm

/-- Witness of C8: a successful upload of a 3000x1500 image. -/
theorem errorHandler_transparent_witness :
    (upload (sampleEnv 3000 1500) postRequest emptyWorld).2 = none ∧
      errorHandler (upload (sampleEnv 3000 1500)) postRequest emptyWorld =
        upload (sampleEnv 3000 1500) postRequest emptyWorld :=
  ⟨by rfl, errorHandler_transparent (upload (sampleEnv 3000 1500)) postRequest emptyWorld (by rfl)⟩

end Demo
